import Mathlib

/-!
Verification development for the OCMS_Toolkit repository
(`ocmstoolkit/modules/Utility.py`).

Python strings are embedded as `List Char`.  Each Python helper used by the
module (`str.rstrip`, `str.endswith`, `os.path.join`, `os.path.basename`,
`re.sub` with a `$`-anchored literal pattern, and `re.search` for the one
regex the module compiles) is given an executable Lean definition that
follows the Python semantics.  Fallible constructors return
`Except PyErr _`; `PyErr` has one constructor per distinct raise site of the
source (assertion messages, `AttributeError`, missing files, ...).

The file systems touched by `MetaFastn` are embedded as association lists
from path to decompressed file content: `os.path.exists` is domain
membership and `IOTools.open_file(...).read(1)` looks at the first character
of the stored (decompressed) content.
-/

/-- Shorthand turning a string literal into the `List Char` the model works on. -/
def S (s : String) : List Char := s.data

/-- Decidable equality for `Except`, so that results of the embedded
fallible constructors can be evaluated on concrete inputs with `decide`. -/
instance {ε α : Type} [DecidableEq ε] [DecidableEq α] : DecidableEq (Except ε α) := fun x y =>
  match x, y with
  | .ok a, .ok b =>
    if h : a = b then .isTrue (by rw [h]) else .isFalse (by simp [h])
  | .error a, .error b =>
    if h : a = b then .isTrue (by rw [h]) else .isFalse (by simp [h])
  | .ok _, .error _ => .isFalse (by simp)
  | .error _, .ok _ => .isFalse (by simp)

/-- Errors raised by the Python module, one constructor per raise site.
`invalidEndSpec` and `noInputFiles` are the two asserts of `get_fastns`;
`noneGroups` is the `AttributeError` raised by calling `.groups()` on a
`None` search result; `cannotOpen` is the exception wrapping
`FileNotFoundError` in `MetaFastn.__init__`; `indexErr` is the
`IndexError` from `self.head[0][0]` on an empty first line; `attrError` is
the `AttributeError` raised by reading an attribute that was never assigned
(`self.fastn`, `self.fastn1_suffix`, `self.prefixstrip`); the rest are the
asserts of `get_format`, `check_for_mates`, `get_suffix` and
`MetaBam.__init__`. -/
inductive PyErr where
  | invalidEndSpec
  | noInputFiles
  | noneGroups
  | cannotOpen
  | unknownFormat
  | headerMismatch
  | indexErr
  | singletonNoMate
  | suffixMismatch
  | attrError
  | unsupportedExt
deriving DecidableEq

/-- Python `str.rstrip(chars)`: remove the longest trailing run of
characters that belong to the character set `chs` (NOT suffix removal). -/
def pyRstrip (l chs : List Char) : List Char :=
  (l.reverse.dropWhile (fun c => chs.contains c)).reverse

/-- Python `str.endswith(t)`. -/
def pyEndswith (l t : List Char) : Bool :=
  t.isSuffixOf l

/-- Python `os.path.basename`: everything after the last slash. -/
def pyBasename (l : List Char) : List Char :=
  (l.reverse.takeWhile (fun c => c ≠ '/')).reverse

/-- Python `os.path.join(d, x)` for POSIX paths as used by the module. -/
def pjoin (d x : List Char) : List Char :=
  if x.head? = some '/' then x
  else if d = [] then x
  else if d.getLast? = some '/' then d ++ x
  else d ++ '/' :: x

/-- Python `re.sub(pat + "$", repl, l)` for a literal pattern anchored at
the end of the string: if `pat` is a suffix of `l` replace that one
occurrence by `repl`, otherwise return `l` unchanged. -/
def pySubEnd (pat repl l : List Char) : List Char :=
  if pat.isSuffixOf l then l.take (l.length - pat.length) ++ repl else l

/-- Python `str.isspace` characters for the ASCII range (the `\S` class of
`re` matches the complement of these). -/
def pyIsSpace (c : Char) : Bool :=
  c = ' ' || c = '\t' || c = '\n' || c = '\r' || c = '\x0b' || c = '\x0c'

/-- Character matcher for `\S`. -/
def pyNonSpace (c : Char) : Bool := !(pyIsSpace c)

/-- Character matcher for `.` in `re` without DOTALL: anything but a newline. -/
def dotChar (c : Char) : Bool := c ≠ '\n'

/-- Character class `[a,q]` of the module's regex: it contains the comma. -/
def fmtClass (c : Char) : Bool := c = 'a' || c = ',' || c = 'q'

/-- Greedy match of `(.*gz)` against a prefix of `l` (the backtracking
engine takes the longest `.*` and then requires the literal `gz`): returns
the longest prefix of `l` of the form `d ++ "gz"` with every character of
`d` accepted by `.`, or `none`. -/
def gzMatch : List Char → Option (List Char)
  | [] => none
  | c :: rest =>
    if dotChar c then
      match gzMatch rest with
      | some m => some (c :: m)
      | none =>
        match rest with
        | z :: _ => if c = 'g' && z = 'z' then some ['g', 'z'] else none
        | [] => none
    else none

/-- Match of `(\.fast[a,q])(.*gz)` at the start of `l`: the literal
`.fast`, one class character, then the greedy `gzMatch`.  Returns the two
group values. -/
def fmtMatch (l : List Char) : Option (List Char × List Char) :=
  match l with
  | d :: f :: a :: s :: t :: c :: rest =>
    if d = '.' ∧ f = 'f' ∧ a = 'a' ∧ s = 's' ∧ t = 't' ∧ fmtClass c = true then
      match gzMatch rest with
      | some suf => some ([d, f, a, s, t, c], suf)
      | none => none
    else none
  | _ => none

/-- Backtracking over the greedy `\S+`: try the longest candidate length
`k` first (at most the length of the leading non-space run), handing the
rest of the string to `fmtMatch`. -/
def tryPre (l : List Char) : Nat → Option (List Char × List Char × List Char)
  | 0 => none
  | k + 1 =>
    match fmtMatch (l.drop (k + 1)) with
    | some (fmt, suf) => some (l.take (k + 1), fmt, suf)
    | none => tryPre l k

/-- Match of the whole pattern `(\S+)(\.fast[a,q])(.*gz)` anchored at the
start of `l`. -/
def searchAt (l : List Char) : Option (List Char × List Char × List Char) :=
  tryPre l (l.takeWhile pyNonSpace).length

/-- The three groups of a successful `re.search` of the module's
`fn_regex`. -/
structure FnGroups where
  pre : List Char
  fmt : List Char
  suf : List Char
deriving DecidableEq

/-- Python `re.search(fn_regex, x)` with
`fn_regex = re.compile(r"(\S+)(\.fast[a,q])(.*gz)")`: try every start
position from the left, at each position running the greedy backtracking
match `searchAt`. -/
def fnSearch : List Char → Option FnGroups
  | [] => none
  | c :: rest =>
    match searchAt (c :: rest) with
    | some (pre, fmt, suf) => some ⟨pre, fmt, suf⟩
    | none => fnSearch rest

/-- Python set equality between `set(a)` and `set(b)`, used for
`args_set in valid_sets` and the `args_set == {...}` dispatch. -/
def pySetEq (a b : List Int) : Bool :=
  a.all (fun x => b.contains x) && b.all (fun x => a.contains x)

/-- The `valid_sets` membership test of `get_fastns` (line 28-29 of
`Utility.py`). -/
def validArgs (args : List Int) : Bool :=
  pySetEq args [0] || pySetEq args [1] || pySetEq args [1, 2] || pySetEq args [1, 2, 3]

/-- The bucket-building loop of `get_fastns` (lines 46-61): walk the search
results in directory order; unpacking `i.groups()` on a `None` raises an
`AttributeError`; otherwise `i.group(0)` (the concatenation of the three
groups) is appended to the bucket selected by comparing the third group to
`".gz"`, `".1.gz"`, `".2.gz"`, `".3.gz"`; any other third group is dropped
silently. -/
def buildBuckets :
    List (Option FnGroups) →
    Except PyErr (List (List Char) × List (List Char) × List (List Char) × List (List Char))
  | [] => .ok ([], [], [], [])
  | none :: _ => .error .noneGroups
  | some g :: rest =>
    match buildBuckets rest with
    | .error e => .error e
    | .ok (b0, b1, b2, b3) =>
      let g0 := g.pre ++ g.fmt ++ g.suf
      if g.suf = S ".gz" then .ok (g0 :: b0, b1, b2, b3)
      else if g.suf = S ".1.gz" then .ok (b0, g0 :: b1, b2, b3)
      else if g.suf = S ".2.gz" then .ok (b0, b1, g0 :: b2, b3)
      else if g.suf = S ".3.gz" then .ok (b0, b1, b2, g0 :: b3)
      else .ok (b0, b1, b2, b3)

/-- Bucketing plus the `os.path.join(datadir, x)` pass (lines 46-67 of
`Utility.py`). -/
def scanBuckets (datadir : List Char) (listing : List (List Char)) :
    Except PyErr (List (List Char) × List (List Char) × List (List Char) × List (List Char)) :=
  match buildBuckets (listing.map fnSearch) with
  | .error e => .error e
  | .ok (b0, b1, b2, b3) =>
    .ok (b0.map (pjoin datadir), b1.map (pjoin datadir),
         b2.map (pjoin datadir), b3.map (pjoin datadir))

/-- Return shapes of `get_fastns`: one list for `{0}` and `{1}`, tuples for
`{1,2}` and `{1,2,3}`, and Python's implicit `None` when no dispatch branch
is taken. -/
inductive FastnsOut where
  | one (l : List (List Char))
  | two (l1 l2 : List (List Char))
  | three (l1 l2 l3 : List (List Char))
  | pynone
deriving DecidableEq

/-- Embedding of `get_fastns(datadir, *args)` (lines 11-76 of
`Utility.py`).  `listing` stands for `os.listdir(datadir)`.  Empty `args`
defaults to `(1,)`; the first assert checks `set(args)` against the four
valid sets; the second assert tests the TRUTHINESS of the list
`fastn_search` (which has one entry per directory entry, `None` included),
so it only fires when the directory listing itself is empty; the loop then
builds the four buckets, raising on `None` entries; finally the result for
the requested set is returned (`None` if no branch matches, which cannot
happen after validation). -/
def get_fastns (datadir : List Char) (listing : List (List Char)) (args : List Int) :
    Except PyErr FastnsOut :=
  let args2 := if args = [] then [1] else args
  if validArgs args2 = false then .error .invalidEndSpec
  else
    let ms := listing.map fnSearch
    if ms = [] then .error .noInputFiles
    else
      match scanBuckets datadir listing with
      | .error e => .error e
      | .ok (f0, f1, f2, f3) =>
        if pySetEq args2 [0] then .ok (.one f0)
        else if pySetEq args2 [1] then .ok (.one f1)
        else if pySetEq args2 [1, 2] then .ok (.two f1 f2)
        else if pySetEq args2 [1, 2, 3] then .ok (.three f1 f2 f3)
        else .ok .pynone

/-- Abstract file system for `MetaFastn`: an association list from path to
DECOMPRESSED file content.  `os.path.exists` is membership;
`IOTools.open_file` retrieves the content. -/
def FS := List (List Char × List Char)

/-- Look up a path in the file system (first match). -/
def fsLookup (fs : FS) (p : List Char) : Option (List Char) :=
  match fs with
  | [] => none
  | (q, c) :: rest => if p = q then some c else fsLookup rest p

/-- Python `f.readline()`: the first line of the remaining content
(including its trailing newline, if any) together with the rest. -/
def pyReadline : List Char → List Char × List Char
  | [] => ([], [])
  | c :: rest =>
    if c = '\n' then (['\n'], rest)
    else
      let (l, r) := pyReadline rest
      (c :: l, r)

/-- The header capture of `MetaFastn.__init__` (line 132 of `Utility.py`):
`[self.openfile.readline().rstrip("\n") for x in range(5)]` — ALWAYS `n`
readline calls, so short files contribute empty strings. -/
def readHead (content : List Char) : Nat → List (List Char)
  | 0 => []
  | n + 1 =>
    let (l, r) := pyReadline content
    pyRstrip l ['\n'] :: readHead r n

/-- Embedding of `MetaFastn.get_format` (lines 155-173): scan the
extensions `("fasta", "fastq")` in order, accepting when the path ends with
`i + ".1.gz"` or `i + ".gz"` (no leading dot); assert a format was found;
then cross-check the first character of `head[0]` (`>` for fasta, `@` for
fastq; an empty first line raises `IndexError` from `self.head[0][0]`). -/
def get_format_model (f1 : List Char) (head : List (List Char)) :
    Except PyErr (List Char) :=
  let fmtOpt : Option (List Char) :=
    if pyEndswith f1 (S "fasta.1.gz") || pyEndswith f1 (S "fasta.gz") then some (S "fasta")
    else if pyEndswith f1 (S "fastq.1.gz") || pyEndswith f1 (S "fastq.gz") then some (S "fastq")
    else none
  match fmtOpt with
  | none => .error .unknownFormat
  | some fmt =>
    match head.head? with
    | none => .error .indexErr
    | some l0 =>
      match l0.head? with
      | none => .error .indexErr
      | some c =>
        if fmt = S "fasta" then
          if c = '>' then .ok fmt else .error .headerMismatch
        else
          if c = '@' then .ok fmt else .error .headerMismatch

/-- Embedding of `MetaFastn.check_for_mates` (lines 176-201) with the
module's two slips repaired so the documented logic can run: the source
reads the never-assigned attribute `self.fastn` on lines 188 and 193
(modelled as `self.fastn1`, the attribute that exists) and line 194 is
written `if.os.path.exists(...)` — a syntax error — (modelled as
`if os.path.exists(...)`).  The literal source behaviour is modelled
separately by `mkMetaFastnRaw`.  Logic: only for paths ending `.1.gz`;
the mate name is `fastn1.rstrip(".1.gz") + ".2.gz"` and is recorded iff it
exists (NO error when it does not); the singleton name uses `".3.gz"`; a
singleton without a recorded mate is an assertion failure; a singleton
whose decompressed first read returns no byte is ignored. -/
def check_for_mates_model (fs : FS) (f1 : List Char) :
    Except PyErr (Option (List Char) × Option (List Char)) :=
  if pyEndswith f1 (S ".1.gz") then
    let pair := pyRstrip f1 (S ".1.gz") ++ S ".2.gz"
    let f2 : Option (List Char) := if (fsLookup fs pair).isSome then some pair else none
    let sing := pyRstrip f1 (S ".1.gz") ++ S ".3.gz"
    match fsLookup fs sing with
    | none => .ok (f2, none)
    | some c =>
      if f2.isSome then
        if c ≠ [] then .ok (f2, some sing) else .ok (f2, none)
      else .error .singletonNoMate
  else .ok (none, none)

/-- Embedding of `MetaFastn.get_suffix` (lines 204-218) up to the asserts:
returns `(fn1_suffix, fn2_suffix, fn3_suffix)`.  The final statement of the
source method (line 218) reads the never-assigned attribute
`self.fastn1_suffix` and therefore raises `AttributeError`; that raw
behaviour lives in `mkMetaFastnRaw`, while here the evident `fn1_suffix` is
used (its value feeds the prefix computation of `__init__` line 150). -/
def get_suffix_model (f1 fmt : List Char) (f2 f3 : Option (List Char)) :
    Except PyErr (List Char × Option (List Char) × Option (List Char)) :=
  if pyEndswith f1 (fmt ++ S ".1.gz") then
    .ok (S "." ++ fmt ++ S ".1.gz",
         if f2.isSome then some (S "." ++ fmt ++ S ".2.gz") else none,
         if f3.isSome then some (S "." ++ fmt ++ S ".3.gz") else none)
  else if pyEndswith f1 (S "." ++ fmt ++ S ".gz") then
    .ok (S "." ++ fmt ++ S ".gz", none, none)
  else .error .suffixMismatch

/-- The descriptor built by `MetaFastn.__init__`.  The Python attribute
`prefix` is called `pfx` here (`prefix` is not usable as a Lean name). -/
structure MetaFastn where
  fastn1 : List Char
  fastn2 : Option (List Char)
  fastn3 : Option (List Char)
  fn1_suffix : Option (List Char)
  fn2_suffix : Option (List Char)
  fn3_suffix : Option (List Char)
  pfx : List Char
  file_format : Option (List Char)
  head : List (List Char)
deriving DecidableEq

/-- Embedding of `MetaFastn.__init__` (lines 114-152) with the module's
attribute-name slips repaired (see `check_for_mates_model` and
`get_suffix_model`; additionally line 149 reads the never-assigned
`self.prefixstrip`, treated here as the evident `None` so that line 150
computes the prefix as
`os.path.basename(self.fastn1.rstrip(self.fn1_suffix))` — note `rstrip`,
a CHARACTER-SET strip, kept faithfully).  The second component of the
result is the open/closed state of the read handle at return: the handle
is opened once, the header is read, and the `try/finally` block closes it
before any validation step runs, so it is `false` on every path where the
open succeeded (and no handle was ever opened when the open failed). -/
def mkMetaFastn (fs : FS) (f1 : List Char) : Except PyErr MetaFastn × Bool :=
  match fsLookup fs f1 with
  | none => (.error .cannotOpen, false)
  | some content =>
    let hd := readHead content 5
    let handleOpenAfterClose := false
    match get_format_model f1 hd with
    | .error e => (.error e, handleOpenAfterClose)
    | .ok fmt =>
      match check_for_mates_model fs f1 with
      | .error e => (.error e, handleOpenAfterClose)
      | .ok (f2, f3) =>
        match get_suffix_model f1 fmt f2 f3 with
        | .error e => (.error e, handleOpenAfterClose)
        | .ok (s1, s2, s3) =>
          (.ok { fastn1 := f1, fastn2 := f2, fastn3 := f3,
                 fn1_suffix := some s1, fn2_suffix := s2, fn3_suffix := s3,
                 pfx := pyBasename (pyRstrip f1 s1),
                 file_format := some fmt, head := hd }, handleOpenAfterClose)

/-- Embedding of `MetaFastn.__init__` with the source's slips taken
literally: after `get_format`, a path ending `.1.gz` reaches
`check_for_mates` line 188 and raises `AttributeError` (`self.fastn` was
never assigned; line 194 `if.os.path.exists` would not even parse); any
other path reaches `get_suffix`, whose final line 218 reads the
never-assigned `self.fastn1_suffix` and raises `AttributeError` after the
suffix assert.  Consequently no construction ever succeeds. -/
def mkMetaFastnRaw (fs : FS) (f1 : List Char) : Except PyErr MetaFastn × Bool :=
  match fsLookup fs f1 with
  | none => (.error .cannotOpen, false)
  | some content =>
    let hd := readHead content 5
    match get_format_model f1 hd with
    | .error e => (.error e, false)
    | .ok fmt =>
      if pyEndswith f1 (S ".1.gz") then (.error .attrError, false)
      else if pyEndswith f1 (fmt ++ S ".1.gz") then (.error .attrError, false)
      else if pyEndswith f1 (S "." ++ fmt ++ S ".gz") then (.error .attrError, false)
      else (.error .suffixMismatch, false)

/-- Did construction succeed? -/
def constructionOk (r : Except PyErr MetaFastn × Bool) : Bool :=
  match r.1 with
  | .ok _ => true
  | .error _ => false

/-- The `fastn2` attribute of a successful construction. -/
def mateOf (r : Except PyErr MetaFastn × Bool) : Option (Option (List Char)) :=
  match r.1 with
  | .ok d => some d.fastn2
  | .error _ => none

/-- The `fastn3` attribute of a successful construction. -/
def read3Of (r : Except PyErr MetaFastn × Bool) : Option (Option (List Char)) :=
  match r.1 with
  | .ok d => some d.fastn3
  | .error _ => none

/-- The `file_format` attribute of a successful construction. -/
def formatOf (r : Except PyErr MetaFastn × Bool) : Option (Option (List Char)) :=
  match r.1 with
  | .ok d => some d.file_format
  | .error _ => none

/-- The `prefix` attribute of a successful construction. -/
def pfxOf (r : Except PyErr MetaFastn × Bool) : Option (List Char) :=
  match r.1 with
  | .ok d => some d.pfx
  | .error _ => none

/-- The `head` attribute of a successful construction. -/
def headOf (r : Except PyErr MetaFastn × Bool) : Option (List (List Char)) :=
  match r.1 with
  | .ok d => some d.head
  | .error _ => none

/-- The file-name triple built by `MetaBam.__init__`. -/
structure MetaBam where
  bamfile : List Char
  samfile : List Char
  cramfile : List Char
deriving DecidableEq

/-- Embedding of `MetaBam.__init__` (lines 227-242 of `Utility.py`): pure
suffix dispatch on `.bam` / `.sam` / `.cram` with the sibling names
produced by `re.sub` on the `$`-anchored extension; when no branch is taken
the final assert raises.  No file system is consulted. -/
def metaBam (infile : List Char) : Except PyErr MetaBam :=
  if pyEndswith infile (S ".bam") then
    .ok { bamfile := infile,
          samfile := pySubEnd (S "bam") (S "sam") infile,
          cramfile := pySubEnd (S "bam") (S "cram") infile }
  else if pyEndswith infile (S ".sam") then
    .ok { samfile := infile,
          bamfile := pySubEnd (S "sam") (S "bam") infile,
          cramfile := pySubEnd (S "sam") (S "cram") infile }
  else if pyEndswith infile (S ".cram") then
    .ok { cramfile := infile,
          bamfile := pySubEnd (S "cram") (S "bam") infile,
          samfile := pySubEnd (S "cram") (S "sam") infile }
  else .error .unsupportedExt

example : metaBam (S "x.bam") =
    .ok { bamfile := S "x.bam", samfile := S "x.sam", cramfile := S "x.cram" } := by decide
example : metaBam (S "x.vcf") = .error .unsupportedExt := by decide
example : constructionOk (mkMetaFastn [(S "s.fastq.1.gz", S "@r\n")] (S "s.fastq.1.gz")) = true := by
  decide
example : mateOf (mkMetaFastn [(S "s.fastq.1.gz", S "@r\n")] (S "s.fastq.1.gz")) = some none := by
  decide
example :
    mateOf (mkMetaFastn [(S "s.fastq.1.gz", S "@r\n"), (S "s.fastq.2.gz", S "@r\n")]
      (S "s.fastq.1.gz")) = some (some (S "s.fastq.2.gz")) := by decide
example :
    read3Of (mkMetaFastn
      [(S "s.fastq.1.gz", S "@r\n"), (S "s.fastq.2.gz", S "@r\n"), (S "s.fastq.3.gz", [])]
      (S "s.fastq.1.gz")) = some none := by decide
example :
    read3Of (mkMetaFastn
      [(S "s.fastq.1.gz", S "@r\n"), (S "s.fastq.2.gz", S "@r\n"), (S "s.fastq.3.gz", S "@x\n")]
      (S "s.fastq.1.gz")) = some (some (S "s.fastq.3.gz")) := by decide
example : pfxOf (mkMetaFastn [(S "sample.fasta.gz", S ">s\n")] (S "sample.fasta.gz")) =
    some (S "sample") := by decide
example : pfxOf (mkMetaFastn [(S "reads.fasta.gz", S ">r\n")] (S "reads.fasta.gz")) =
    some (S "read") := by decide
example : (mkMetaFastnRaw [(S "sample.fasta.gz", S ">s\n")] (S "sample.fasta.gz")).1 =
    .error .attrError := by decide
example : headOf (mkMetaFastn [(S "sample.fasta.gz", S ">a\n")] (S "sample.fasta.gz")) =
    some [S ">a", [], [], [], []] := by decide

/-- Decidable test for the single-end convention of the directory scanner:
the whole filename is matched by the regex and classified into the role-0
bucket (third group exactly `".gz"`, matched span the entire name). -/
def isSingleEndMatch (x : List Char) : Bool :=
  match fnSearch x with
  | some g => g.suf == S ".gz" && (g.pre ++ g.fmt ++ g.suf) == x
  | none => false

/-- Role of a path read off its trailing characters: `....1.gz` is role 1,
`....2.gz` role 2, `....3.gz` role 3, and `<class char>.gz` (the last
character of the `.fast[a,q]` group before `.gz`) role 0. -/
def roleOf (y : List Char) : Option Nat :=
  match y.reverse with
  | 'z' :: 'g' :: '.' :: c :: _ =>
    if c = '1' then some 1
    else if c = '2' then some 2
    else if c = '3' then some 3
    else if fmtClass c then some 0
    else none
  | _ => none

/-- A suffix of the appended part is a suffix of the whole. -/
theorem endswith_append_of (s t tt : List Char) (h : tt <:+ t) :
    pyEndswith (s ++ t) tt = true := by
  simp only [pyEndswith, List.isSuffixOf_iff_suffix]
  exact h.trans (List.suffix_append s t)

/-- A candidate no longer than the appended part that is not a suffix of it
is not a suffix of the whole. -/
theorem not_endswith_append (s t tt : List Char) (hlen : tt.length ≤ t.length)
    (hns : ¬ tt <:+ t) : pyEndswith (s ++ t) tt = false := by
  have hmain : ¬ (tt <:+ (s ++ t)) := by
    intro hc
    rcases List.suffix_or_suffix_of_suffix hc (List.suffix_append s t) with h1 | h1
    · exact hns h1
    · cases List.IsSuffix.eq_of_length_le h1 hlen
      exact hns (List.suffix_refl _)
  simp only [pyEndswith, ← Bool.not_eq_true, List.isSuffixOf_iff_suffix]
  exact hmain

/-- When the dropWhile pass of `rstrip` stops inside the appended tail, the
left part survives untouched. -/
theorem pyRstrip_append (s t chs : List Char)
    (h : t.reverse.dropWhile (fun c => chs.contains c) ≠ []) :
    pyRstrip (s ++ t) chs =
      s ++ (t.reverse.dropWhile (fun c => chs.contains c)).reverse := by
  unfold pyRstrip
  rw [List.reverse_append, List.dropWhile_append,
      if_neg (by simpa [List.isEmpty_iff] using h),
      List.reverse_append, List.reverse_reverse]

/-- The header list always has exactly `n` entries: `readline` is called a
fixed five times regardless of the file's length. -/
theorem readHead_length (content : List Char) (n : Nat) :
    (readHead content n).length = n := by
  induction n generalizing content with
  | zero => rfl
  | succ n ih => simp [readHead, ih]

/-- The handle-state component of the repaired constructor is `false` on
every path: the `try/finally` block of `__init__` closes the read handle
before any validation runs. -/
theorem mkMetaFastn_snd (fs : FS) (f1 : List Char) : (mkMetaFastn fs f1).2 = false := by
  unfold mkMetaFastn
  dsimp only []
  repeat' split
  all_goals rfl

/-- Composition lemma: when every stage of the repaired constructor
succeeds, the resulting descriptor is the record assembled from the stage
outputs. -/
theorem mkMetaFastn_eq (fs : FS) (f1 content fmt : List Char)
    (f2 f3 : Option (List Char)) (s1 : List Char) (s2 s3 : Option (List Char))
    (h1 : fsLookup fs f1 = some content)
    (h2 : get_format_model f1 (readHead content 5) = .ok fmt)
    (h3 : check_for_mates_model fs f1 = .ok (f2, f3))
    (h4 : get_suffix_model f1 fmt f2 f3 = .ok (s1, s2, s3)) :
    (mkMetaFastn fs f1).1 =
      .ok { fastn1 := f1, fastn2 := f2, fastn3 := f3,
            fn1_suffix := some s1, fn2_suffix := s2, fn3_suffix := s3,
            pfx := pyBasename (pyRstrip f1 s1),
            file_format := some fmt, head := readHead content 5 } := by
  simp only [mkMetaFastn, h1, h2, h3, h4]

example : (mkMetaFastn [(S "s.fastq.1.gz", S "@r\n")] (S "s.fastq.1.gz")).2 = false := by decide

example : fnSearch (S "sample.fasta.gz") = some ⟨S "sample", S ".fasta", S ".gz"⟩ := by decide
example : fnSearch (S "s.fastq.1.gz") = some ⟨S "s", S ".fastq", S ".1.gz"⟩ := by decide
example : fnSearch (S "readme.txt") = none := by decide
example : get_fastns (S "d") [S "sample.fasta.gz"] [1] = .ok (.one []) := by decide
example : get_fastns (S "d") [S "readme.txt"] [1] = .error .noneGroups := by decide
example : get_fastns (S "d") [] [1] = .error .noInputFiles := by decide
example : get_fastns (S "d") [S "s.fastq.1.gz", S "s.fastq.2.gz"] [1, 2] =
    .ok (.two [S "d/s.fastq.1.gz"] [S "d/s.fastq.2.gz"]) := by decide

/-- C1 counterexample: a `.fastq.1.gz` file whose mate `.fastq.2.gz` does
not exist on disk.  The claim says construction fails with
`MissingMateError`; in fact `check_for_mates` records a mate only when it
exists and raises nothing when it does not (no missing-mate error exists
anywhere in the module), so construction succeeds with `fastn2` unset. -/
theorem c1_counterexample :
    constructionOk (mkMetaFastn [(S "s.fastq.1.gz", S "@r\n")] (S "s.fastq.1.gz")) = true ∧
    mateOf (mkMetaFastn [(S "s.fastq.1.gz", S "@r\n")] (S "s.fastq.1.gz")) = some none := by
  decide

/-- C2: evaluation of the constructor at the failing input.  The prefix is
derived with `str.rstrip`, which strips a CHARACTER SET, not a suffix: for
`sample.fasta.gz` the claimed round-trip happens to hold (prefix
`sample`), but for `reads.fasta.gz` the trailing `s` of the stem lies in
the character set of `.fasta.gz` and is eaten, giving `read` instead of
`reads`. -/
theorem c2_prefix_rstrip :
    pfxOf (mkMetaFastn [(S "sample.fasta.gz", S ">s\n")] (S "sample.fasta.gz")) =
      some (S "sample") ∧
    pfxOf (mkMetaFastn [(S "reads.fasta.gz", S ">r\n")] (S "reads.fasta.gz")) =
      some (S "read") ∧
    S "read" ≠ S "reads" := by
  decide

/-- C3: the literal source cannot run the documented singleton logic —
`check_for_mates` reads the never-assigned attribute `self.fastn`
(line 188) before reaching the singleton check, so construction of any
paired sample raises `AttributeError` (first conjunct, raw model); with
the attribute slips repaired, the logic is exactly as claimed: an empty
`.fastq.3.gz` (no decompressed first byte) is silently ignored while a
non-empty one is recorded as `fastn3` (remaining conjuncts). -/
theorem c3_singleton_logic :
    (mkMetaFastnRaw
        [(S "s.fastq.1.gz", S "@r\n"), (S "s.fastq.2.gz", S "@r\n"), (S "s.fastq.3.gz", [])]
        (S "s.fastq.1.gz")).1 = .error .attrError ∧
    constructionOk (mkMetaFastn
        [(S "s.fastq.1.gz", S "@r\n"), (S "s.fastq.2.gz", S "@r\n"), (S "s.fastq.3.gz", [])]
        (S "s.fastq.1.gz")) = true ∧
    read3Of (mkMetaFastn
        [(S "s.fastq.1.gz", S "@r\n"), (S "s.fastq.2.gz", S "@r\n"), (S "s.fastq.3.gz", [])]
        (S "s.fastq.1.gz")) = some none ∧
    read3Of (mkMetaFastn
        [(S "s.fastq.1.gz", S "@r\n"), (S "s.fastq.2.gz", S "@r\n"),
         (S "s.fastq.3.gz", S "@x\n")]
        (S "s.fastq.1.gz")) = some (some (S "s.fastq.3.gz")) ∧
    mateOf (mkMetaFastn
        [(S "s.fastq.1.gz", S "@r\n"), (S "s.fastq.2.gz", S "@r\n"), (S "s.fastq.3.gz", [])]
        (S "s.fastq.1.gz")) = some (some (S "s.fastq.2.gz")) := by
  decide

/-- C4: evaluation of `get_fastns` at the failing input.  In a directory
whose only entry is `readme.txt`, ZERO files match the pattern, yet the
no-input-files assert does not fire — `assert fastn_search` only tests
that the listing is non-empty (the list holds one `None`) — and the code
instead crashes calling `.groups()` on `None`.  Only an empty directory
listing produces the no-input-files error. -/
theorem c4_no_input_check :
    get_fastns (S "d") [S "readme.txt"] [1] = .error .noneGroups ∧
    get_fastns (S "d") [] [1] = .error .noInputFiles := by
  decide

/-- C5 counterexample: a directory with exactly one single-end file
`sample.fasta.gz` and no paired files.  The claim says `scan(dir, {1})`
returns that path prefixed with the directory; in fact role 1 selects the
`.1.gz` bucket, so the result is the empty list. -/
theorem c5_counterexample :
    get_fastns (S "d") [S "sample.fasta.gz"] [1] = .ok (.one []) ∧
    get_fastns (S "d") [S "sample.fasta.gz"] [1] ≠
      .ok (.one [pjoin (S "d") (S "sample.fasta.gz")]) := by
  decide

/-- C6: format detection of the Read-File Descriptor.  With the
attribute-name slips repaired, `describe("sample.fasta.gz")` yields format
`fasta` with no mate and no singleton (single end); a fasta file whose
first header byte is not `>` fails the header assert, as does a fastq file
whose first byte is not `@`; a name matching no `{fasta,fastq} x
{.1.gz,.gz}` combination fails the unknown-format assert.  The literal
source (raw model, last conjunct) instead raises `AttributeError` on the
success path: `get_suffix` line 218 reads the never-assigned
`self.fastn1_suffix`, so no construction ever succeeds as written. -/
theorem c6_format_detection :
    formatOf (mkMetaFastn [(S "sample.fasta.gz", S ">seq1\nACGT\n")] (S "sample.fasta.gz")) =
      some (some (S "fasta")) ∧
    mateOf (mkMetaFastn [(S "sample.fasta.gz", S ">seq1\nACGT\n")] (S "sample.fasta.gz")) =
      some none ∧
    read3Of (mkMetaFastn [(S "sample.fasta.gz", S ">seq1\nACGT\n")] (S "sample.fasta.gz")) =
      some none ∧
    (mkMetaFastn [(S "sample.fasta.gz", S "xseq\n")] (S "sample.fasta.gz")).1 =
      .error .headerMismatch ∧
    (mkMetaFastn [(S "x.fastq.gz", S "seq\n")] (S "x.fastq.gz")).1 =
      .error .headerMismatch ∧
    (mkMetaFastn [(S "notes.txt.gz", S ">a\n")] (S "notes.txt.gz")).1 =
      .error .unknownFormat ∧
    (mkMetaFastnRaw [(S "sample.fasta.gz", S ">seq1\nACGT\n")] (S "sample.fasta.gz")).1 =
      .error .attrError := by
  decide

/-- C9 counterexample: a one-line file.  The claim says `header_lines` has
fewer entries when the file has fewer than five lines; in fact the list
comprehension calls `readline()` exactly five times, so the header always
has five entries, the missing lines padded by empty strings. -/
theorem c9_counterexample :
    headOf (mkMetaFastn [(S "sample.fasta.gz", S ">a\n")] (S "sample.fasta.gz")) =
      some [S ">a", [], [], [], []] ∧
    ([S ">a", [], [], [], []] : List (List Char)).length = 5 := by
  decide

/-- A suffix of a string is reported by `pyEndswith`. -/
theorem pyEndswith_of_suffix {y t : List Char} (h : t <:+ y) : pyEndswith y t = true := by
  simpa [pyEndswith, List.isSuffixOf_iff_suffix] using h

/-- Appending on the left preserves distinctness of the appended parts. -/
theorem stem_append_ne (stem a b : List Char) (h : a ≠ b) : stem ++ a ≠ stem ++ b :=
  fun hc => h ((List.append_right_inj stem).mp hc)

/-- Looking up the key of the first entry. -/
theorem fsLookup_cons_eq (p c : List Char) (rest : FS) :
    fsLookup ((p, c) :: rest) p = some c := by
  simp [fsLookup]

/-- Looking up a key different from the first entry's key skips it. -/
theorem fsLookup_cons_ne (q c p : List Char) (rest : FS) (h : p ≠ q) :
    fsLookup ((q, c) :: rest) p = fsLookup rest p := by
  simp [fsLookup, h]

/-- Substituting an end-anchored extension pattern after a dot. -/
theorem pySubEnd_dot (s pat repl : List Char) :
    pySubEnd pat repl (s ++ '.' :: pat) = s ++ '.' :: repl := by
  unfold pySubEnd
  rw [if_pos]
  · have h1 : (s ++ '.' :: pat).length - pat.length = (s ++ ['.']).length := by
      simp [List.length_append]
      omega
    rw [h1, show s ++ '.' :: pat = (s ++ ['.']) ++ pat from by simp, List.take_left,
        List.append_assoc]
    rfl
  · simp only [List.isSuffixOf_iff_suffix]
    exact (List.suffix_cons '.' pat).trans (List.suffix_append s ('.' :: pat))

/-- A Bool that is false is not true. -/
theorem bool_ne_true {b : Bool} (h : b = false) : ¬ b = true := by simp [h]

/-- C7: the BAM/SAM/CRAM name mapper.  For any stem, each of the three
recognised extensions yields the same sibling triple by end-anchored
substitution, and any input ending in none of `.bam`, `.sam`, `.cram`
fails the final assert.  The embedding `metaBam` is a pure function of the
input name: no file system argument exists, matching the source, which
only calls `str.endswith` and `re.sub`. -/
theorem c7_metabam (s t : List Char)
    (hb : pyEndswith t (S ".bam") = false)
    (hs : pyEndswith t (S ".sam") = false)
    (hc : pyEndswith t (S ".cram") = false) :
    metaBam (s ++ S ".bam") =
      .ok { bamfile := s ++ S ".bam", samfile := s ++ S ".sam", cramfile := s ++ S ".cram" } ∧
    metaBam (s ++ S ".sam") =
      .ok { bamfile := s ++ S ".bam", samfile := s ++ S ".sam", cramfile := s ++ S ".cram" } ∧
    metaBam (s ++ S ".cram") =
      .ok { bamfile := s ++ S ".bam", samfile := s ++ S ".sam", cramfile := s ++ S ".cram" } ∧
    metaBam t = .error .unsupportedExt := by
  have eb : s ++ S ".bam" = s ++ '.' :: S "bam" := rfl
  have es : s ++ S ".sam" = s ++ '.' :: S "sam" := rfl
  have ec : s ++ S ".cram" = s ++ '.' :: S "cram" := rfl
  refine ⟨?_, ?_, ?_, ?_⟩
  · unfold metaBam
    rw [if_pos (endswith_append_of s (S ".bam") (S ".bam") (List.suffix_refl _)),
        eb, es, ec, pySubEnd_dot, pySubEnd_dot]
  · unfold metaBam
    rw [if_neg (bool_ne_true (not_endswith_append s (S ".sam") (S ".bam")
          (by decide) (by decide))),
        if_pos (endswith_append_of s (S ".sam") (S ".sam") (List.suffix_refl _)),
        eb, es, ec, pySubEnd_dot, pySubEnd_dot]
  · unfold metaBam
    rw [if_neg (bool_ne_true (not_endswith_append s (S ".cram") (S ".bam")
          (by decide) (by decide))),
        if_neg (bool_ne_true (not_endswith_append s (S ".cram") (S ".sam")
          (by decide) (by decide))),
        if_pos (endswith_append_of s (S ".cram") (S ".cram") (List.suffix_refl _)),
        eb, es, ec, pySubEnd_dot, pySubEnd_dot]
  · unfold metaBam
    rw [if_neg (bool_ne_true hb), if_neg (bool_ne_true hs), if_neg (bool_ne_true hc)]

/-- C7 witness: the mapper evaluated at `x.bam` and at the unsupported
`x.vcf`. -/
theorem c7_witness :
    metaBam (S "x.bam") =
      .ok { bamfile := S "x.bam", samfile := S "x.sam", cramfile := S "x.cram" } ∧
    metaBam (S "x.vcf") = .error .unsupportedExt := by
  have h := c7_metabam (S "x") (S "x.vcf") (by decide) (by decide) (by decide)
  have e1 : S "x" ++ S ".bam" = S "x.bam" := by decide
  have e2 : S "x" ++ S ".sam" = S "x.sam" := by decide
  have e3 : S "x" ++ S ".cram" = S "x.cram" := by decide
  refine ⟨?_, h.2.2.2⟩
  have h1 := h.1
  rw [e1, e2, e3] at h1
  exact h1

/-- The bucket loop can only fail with the NoneType-groups error. -/
theorem buildBuckets_error (ms : List (Option FnGroups)) (e : PyErr)
    (h : buildBuckets ms = .error e) : e = .noneGroups := by
  induction ms with
  | nil => simp [buildBuckets] at h
  | cons o rest ih =>
    cases o with
    | none =>
      simp only [buildBuckets] at h
      exact (Except.error.inj h).symm
    | some g =>
      rcases hr : buildBuckets rest with e' | t
      · simp only [buildBuckets, hr] at h
        cases Except.error.inj h
        exact ih hr
      · obtain ⟨b0, b1, b2, b3⟩ := t
        simp only [buildBuckets, hr] at h
        split_ifs at h

/-- The scanner wrapper inherits the same property. -/
theorem scanBuckets_error (datadir : List Char) (listing : List (List Char)) (e : PyErr)
    (h : scanBuckets datadir listing = .error e) : e = .noneGroups := by
  unfold scanBuckets at h
  rcases hb : buildBuckets (listing.map fnSearch) with e' | t
  · rw [hb] at h
    simp only [] at h
    rw [← Except.error.inj h]
    exact buildBuckets_error _ _ hb
  · obtain ⟨b0, b1, b2, b3⟩ := t
    rw [hb] at h
    simp at h

/-- C8: the invalid-end-spec assertion of the directory scan fires exactly
when the requested set of roles (the empty request defaulting to `{1}`) is
not one of the four valid sets `{0}`, `{1}`, `{1,2}`, `{1,2,3}`; on every
valid request the scan never produces that error, whatever the directory
contains. -/
theorem c8_end_spec (datadir : List Char) (listing : List (List Char)) (args : List Int) :
    get_fastns datadir listing args = .error .invalidEndSpec ↔
      validArgs (if args = [] then [1] else args) = false := by
  constructor
  · intro h
    cases hv : validArgs (if args = [] then [1] else args) with
    | false => rfl
    | true =>
      exfalso
      have hnot : ¬ validArgs (if args = [] then [1] else args) = false := by simp [hv]
      unfold get_fastns at h
      rw [if_neg hnot] at h
      simp only [] at h
      by_cases hl : listing.map fnSearch = []
      · rw [if_pos hl] at h
        simp at h
      · rw [if_neg hl] at h
        rcases hsb : scanBuckets datadir listing with e | t
        · rw [hsb] at h
          simp only [] at h
          have he := scanBuckets_error _ _ _ hsb
          rw [he] at h
          simp at h
        · obtain ⟨f0, f1, f2, f3⟩ := t
          rw [hsb] at h
          simp only [] at h
          split_ifs at h
  · intro hv
    unfold get_fastns
    rw [if_pos hv]

/-- C9 (amended): on every successful construction the header list has
EXACTLY five entries (never fewer — short files are padded with empty
strings by the five unconditional `readline()` calls), and the read handle
is closed before the constructor returns on every path. -/
theorem c9_amended (fs : FS) (f1 : List Char) (d : MetaFastn)
    (h : (mkMetaFastn fs f1).1 = .ok d) :
    d.head.length = 5 ∧ (mkMetaFastn fs f1).2 = false := by
  refine ⟨?_, mkMetaFastn_snd fs f1⟩
  cases hl : fsLookup fs f1 with
  | none => simp [mkMetaFastn, hl] at h
  | some content =>
    cases hf : get_format_model f1 (readHead content 5) with
    | error e => simp [mkMetaFastn, hl, hf] at h
    | ok fmt =>
      cases hm : check_for_mates_model fs f1 with
      | error e => simp [mkMetaFastn, hl, hf, hm] at h
      | ok p =>
        obtain ⟨f2, f3⟩ := p
        cases hsu : get_suffix_model f1 fmt f2 f3 with
        | error e => simp [mkMetaFastn, hl, hf, hm, hsu] at h
        | ok q =>
          obtain ⟨s1, s2, s3⟩ := q
          simp only [mkMetaFastn, hl, hf, hm, hsu, Except.ok.injEq] at h
          rw [← h]
          exact readHead_length content 5

/-- C9 witness: the amended statement evaluated on a one-line fasta file. -/
theorem c9_witness :
    ({ fastn1 := S "sample.fasta.gz", fastn2 := none, fastn3 := none,
       fn1_suffix := some (S ".fasta.gz"), fn2_suffix := none, fn3_suffix := none,
       pfx := S "sample", file_format := some (S "fasta"),
       head := [S ">a", [], [], [], []] } : MetaFastn).head.length = 5 ∧
    (mkMetaFastn [(S "sample.fasta.gz", S ">a\n")] (S "sample.fasta.gz")).2 = false :=
  c9_amended [(S "sample.fasta.gz", S ">a\n")] (S "sample.fasta.gz") _ (by decide)

/-- C1 (amended): for every stem, a `<stem>.fastq.1.gz` whose mate
`<stem>.fastq.2.gz` does NOT exist constructs successfully (with the
module's attribute-name slips repaired) with `fastn2` left unset — no
missing-mate error is raised, and none exists in the module — while with
both files present construction succeeds with `fastn2` set to the mate
path (the paired case). -/
theorem c1_amended (stem : List Char) :
    (constructionOk (mkMetaFastn [(stem ++ S ".fastq.1.gz", S "@r\n")]
        (stem ++ S ".fastq.1.gz")) = true ∧
     mateOf (mkMetaFastn [(stem ++ S ".fastq.1.gz", S "@r\n")]
        (stem ++ S ".fastq.1.gz")) = some none) ∧
    (constructionOk (mkMetaFastn
        [(stem ++ S ".fastq.1.gz", S "@r\n"), (stem ++ S ".fastq.2.gz", S "@r\n")]
        (stem ++ S ".fastq.1.gz")) = true ∧
     mateOf (mkMetaFastn
        [(stem ++ S ".fastq.1.gz", S "@r\n"), (stem ++ S ".fastq.2.gz", S "@r\n")]
        (stem ++ S ".fastq.1.gz")) = some (some (stem ++ S ".fastq.2.gz"))) := by
  have hend1 : pyEndswith (stem ++ S ".fastq.1.gz") (S ".1.gz") = true :=
    endswith_append_of stem (S ".fastq.1.gz") (S ".1.gz") (by decide)
  have hnf1 : pyEndswith (stem ++ S ".fastq.1.gz") (S "fasta.1.gz") = false :=
    not_endswith_append stem (S ".fastq.1.gz") (S "fasta.1.gz") (by decide) (by decide)
  have hnf2 : pyEndswith (stem ++ S ".fastq.1.gz") (S "fasta.gz") = false :=
    not_endswith_append stem (S ".fastq.1.gz") (S "fasta.gz") (by decide) (by decide)
  have hq1 : pyEndswith (stem ++ S ".fastq.1.gz") (S "fastq.1.gz") = true :=
    endswith_append_of stem (S ".fastq.1.gz") (S "fastq.1.gz") (by decide)
  have hfmt : get_format_model (stem ++ S ".fastq.1.gz") (readHead (S "@r\n") 5) =
      .ok (S "fastq") := by
    unfold get_format_model
    rw [hnf1, hnf2, hq1]
    rfl
  have hrstrip : pyRstrip (stem ++ S ".fastq.1.gz") (S ".1.gz") = stem ++ S ".fastq" := by
    rw [pyRstrip_append stem (S ".fastq.1.gz") (S ".1.gz") (by decide),
        show ((S ".fastq.1.gz").reverse.dropWhile
          (fun c => (S ".1.gz").contains c)).reverse = S ".fastq" from by decide]
  have hcat2 : stem ++ S ".fastq" ++ S ".2.gz" = stem ++ S ".fastq.2.gz" := by
    rw [List.append_assoc]
    rfl
  have hcat3 : stem ++ S ".fastq" ++ S ".3.gz" = stem ++ S ".fastq.3.gz" := by
    rw [List.append_assoc]
    rfl
  have hsufq : (S "fastq" : List Char) ++ S ".1.gz" = S "fastq.1.gz" := by decide
  constructor
  · -- mate absent
    have hlkA1 : fsLookup [(stem ++ S ".fastq.1.gz", S "@r\n")] (stem ++ S ".fastq.1.gz") =
        some (S "@r\n") := fsLookup_cons_eq _ _ _
    have hlkA2 : fsLookup [(stem ++ S ".fastq.1.gz", S "@r\n")] (stem ++ S ".fastq.2.gz") =
        none := by
      rw [fsLookup_cons_ne _ _ _ _ (stem_append_ne stem _ _ (by decide))]
      rfl
    have hlkA3 : fsLookup [(stem ++ S ".fastq.1.gz", S "@r\n")] (stem ++ S ".fastq.3.gz") =
        none := by
      rw [fsLookup_cons_ne _ _ _ _ (stem_append_ne stem _ _ (by decide))]
      rfl
    have hmA : check_for_mates_model [(stem ++ S ".fastq.1.gz", S "@r\n")]
        (stem ++ S ".fastq.1.gz") = .ok (none, none) := by
      unfold check_for_mates_model
      simp only []
      rw [hend1, hrstrip, hcat2, hcat3, hlkA2, hlkA3]
      rfl
    have hsufA : get_suffix_model (stem ++ S ".fastq.1.gz") (S "fastq") none none =
        .ok (S ".fastq.1.gz", none, none) := by
      unfold get_suffix_model
      rw [hsufq, hq1]
      rfl
    have hA := mkMetaFastn_eq [(stem ++ S ".fastq.1.gz", S "@r\n")]
      (stem ++ S ".fastq.1.gz") (S "@r\n") (S "fastq") none none
      (S ".fastq.1.gz") none none hlkA1 hfmt hmA hsufA
    exact ⟨by simp [constructionOk, hA], by simp [mateOf, hA]⟩
  · -- mate present
    have hlkB1 : fsLookup
        [(stem ++ S ".fastq.1.gz", S "@r\n"), (stem ++ S ".fastq.2.gz", S "@r\n")]
        (stem ++ S ".fastq.1.gz") = some (S "@r\n") := fsLookup_cons_eq _ _ _
    have hlkB2 : fsLookup
        [(stem ++ S ".fastq.1.gz", S "@r\n"), (stem ++ S ".fastq.2.gz", S "@r\n")]
        (stem ++ S ".fastq.2.gz") = some (S "@r\n") := by
      rw [fsLookup_cons_ne _ _ _ _ (stem_append_ne stem _ _ (by decide))]
      exact fsLookup_cons_eq _ _ _
    have hlkB3 : fsLookup
        [(stem ++ S ".fastq.1.gz", S "@r\n"), (stem ++ S ".fastq.2.gz", S "@r\n")]
        (stem ++ S ".fastq.3.gz") = none := by
      rw [fsLookup_cons_ne _ _ _ _ (stem_append_ne stem _ _ (by decide)),
          fsLookup_cons_ne _ _ _ _ (stem_append_ne stem _ _ (by decide))]
      rfl
    have hmB : check_for_mates_model
        [(stem ++ S ".fastq.1.gz", S "@r\n"), (stem ++ S ".fastq.2.gz", S "@r\n")]
        (stem ++ S ".fastq.1.gz") = .ok (some (stem ++ S ".fastq.2.gz"), none) := by
      unfold check_for_mates_model
      simp only []
      rw [hend1, hrstrip, hcat2, hcat3, hlkB2, hlkB3]
      rfl
    have hsufB : get_suffix_model (stem ++ S ".fastq.1.gz") (S "fastq")
        (some (stem ++ S ".fastq.2.gz")) none =
        .ok (S ".fastq.1.gz", some (S ".fastq.2.gz"), none) := by
      unfold get_suffix_model
      rw [hsufq, hq1]
      rfl
    have hB := mkMetaFastn_eq
      [(stem ++ S ".fastq.1.gz", S "@r\n"), (stem ++ S ".fastq.2.gz", S "@r\n")]
      (stem ++ S ".fastq.1.gz") (S "@r\n") (S "fastq")
      (some (stem ++ S ".fastq.2.gz")) none
      (S ".fastq.1.gz") (some (S ".fastq.2.gz")) none hlkB1 hfmt hmB hsufB
    exact ⟨by simp [constructionOk, hB], by simp [mateOf, hB]⟩

/-- When every directory entry is a full single-end match, the bucket loop
puts exactly the entries, in order, into the role-0 bucket and leaves the
other buckets empty. -/
theorem buildBuckets_single (l : List (List Char))
    (h : ∀ x ∈ l, isSingleEndMatch x = true) :
    buildBuckets (l.map fnSearch) = .ok (l, [], [], []) := by
  induction l with
  | nil => rfl
  | cons x rest ih =>
    have hx := h x (List.mem_cons_self x rest)
    have hr := ih (fun y hy => h y (List.mem_cons_of_mem x hy))
    unfold isSingleEndMatch at hx
    rcases hg : fnSearch x with _ | g
    · rw [hg] at hx
      simp at hx
    · rw [hg] at hx
      simp only [Bool.and_eq_true, beq_iff_eq] at hx
      obtain ⟨hsuf, hg0⟩ := hx
      rw [List.map_cons, hg]
      simp only [buildBuckets, hr]
      rw [if_pos hsuf, hg0]

/-- The scanner output for an all-single-end directory. -/
theorem scanBuckets_single (dir : List Char) (l : List (List Char))
    (h : ∀ x ∈ l, isSingleEndMatch x = true) :
    scanBuckets dir l = .ok (l.map (pjoin dir), [], [], []) := by
  unfold scanBuckets
  rw [buildBuckets_single l h]
  rfl

/-- C5 (amended): for every non-empty directory in which each entry
matches the single-end convention `<stem>.fast[aq].gz` (and there are no
paired files), it is the role-0 request `scan(dir, {0})` that returns
exactly those entries, in order, each prefixed with the directory;
`scan(dir, {1})` instead selects the `.1.gz` bucket, which is empty for
such a directory (see the counterexample). -/
theorem c5_amended (dir : List Char) (listing : List (List Char))
    (hne : listing ≠ []) (hall : ∀ x ∈ listing, isSingleEndMatch x = true) :
    get_fastns dir listing [0] = .ok (.one (listing.map (pjoin dir))) ∧
    get_fastns dir listing [1] = .ok (.one []) := by
  have hmapne : ¬ listing.map fnSearch = [] := by
    simpa [List.map_eq_nil_iff] using hne
  have hsb := scanBuckets_single dir listing hall
  constructor
  · unfold get_fastns
    rw [if_neg (by decide : ¬(([0] : List Int) = []))]
    rw [if_neg (by decide : ¬ validArgs [0] = false)]
    simp only []
    rw [if_neg hmapne, hsb]
    rfl
  · unfold get_fastns
    rw [if_neg (by decide : ¬(([1] : List Int) = []))]
    rw [if_neg (by decide : ¬ validArgs [1] = false)]
    simp only []
    rw [if_neg hmapne, hsb]
    rfl

/-- C5 witness: the amended statement evaluated on a directory holding the
single file `sample.fasta.gz`. -/
theorem c5_witness :
    get_fastns (S "d") [S "sample.fasta.gz"] [0] = .ok (.one [S "d/sample.fasta.gz"]) := by
  have h := (c5_amended (S "d") [S "sample.fasta.gz"] (by decide) (by decide)).1
  exact h.trans (by decide)

/-- The second group produced by `fmtMatch` is always `.fast` followed by
one class character. -/
theorem fmtMatch_fmt (l f s : List Char) (h : fmtMatch l = some (f, s)) :
    ∃ c, fmtClass c = true ∧ f = '.' :: 'f' :: 'a' :: 's' :: 't' :: [c] := by
  unfold fmtMatch at h
  split at h
  · rename_i d fc ac sc tc c rest
    split at h
    · rename_i hcond
      obtain ⟨h1, h2, h3, h4, h5, h6⟩ := hcond
      rcases hz : gzMatch rest with _ | suf
      · rw [hz] at h
        simp at h
      · rw [hz] at h
        simp only [Option.some.injEq, Prod.mk.injEq] at h
        refine ⟨c, h6, ?_⟩
        rw [← h.1, h1, h2, h3, h4, h5]
    · exact absurd h (by simp)
  · exact absurd h (by simp)

/-- The backtracking over the `\S+` length hands some tail of the string
to `fmtMatch`, so the last two groups always come from a `fmtMatch`. -/
theorem tryPre_shape (l : List Char) (k : Nat) (p f s : List Char)
    (h : tryPre l k = some (p, f, s)) :
    ∃ j, fmtMatch (l.drop j) = some (f, s) := by
  induction k with
  | zero => simp [tryPre] at h
  | succ k ih =>
    unfold tryPre at h
    rcases hf : fmtMatch (l.drop (k + 1)) with _ | q
    · rw [hf] at h
      simp only [] at h
      exact ih h
    · obtain ⟨fc, sc⟩ := q
      rw [hf] at h
      simp only [Option.some.injEq, Prod.mk.injEq] at h
      exact ⟨k + 1, by rw [hf, h.2.1, h.2.2]⟩

/-- The format group of any successful search is `.fast` plus one class
character. -/
theorem fnSearch_fmt (x : List Char) (g : FnGroups) (h : fnSearch x = some g) :
    ∃ c, fmtClass c = true ∧ g.fmt = '.' :: 'f' :: 'a' :: 's' :: 't' :: [c] := by
  induction x with
  | nil => simp [fnSearch] at h
  | cons a rest ih =>
    unfold fnSearch at h
    rcases hs : searchAt (a :: rest) with _ | t
    · rw [hs] at h
      simp only [] at h
      exact ih h
    · obtain ⟨p, fc, sc⟩ := t
      rw [hs] at h
      simp only [Option.some.injEq] at h
      unfold searchAt at hs
      obtain ⟨j, hj⟩ := tryPre_shape _ _ _ _ _ hs
      obtain ⟨c, hc, hfc⟩ := fmtMatch_fmt _ _ _ hj
      refine ⟨c, hc, ?_⟩
      rw [← h]
      exact hfc

/-- Structure of the four buckets: every stored path is the `group(0)`
string of one of the search results, and its third group equals the
bucket's suffix. -/
theorem buildBuckets_mem (ms : List (Option FnGroups)) (b0 b1 b2 b3 : List (List Char))
    (h : buildBuckets ms = .ok (b0, b1, b2, b3)) :
    (∀ y ∈ b0, ∃ g, some g ∈ ms ∧ g.suf = S ".gz" ∧ y = g.pre ++ g.fmt ++ g.suf) ∧
    (∀ y ∈ b1, ∃ g, some g ∈ ms ∧ g.suf = S ".1.gz" ∧ y = g.pre ++ g.fmt ++ g.suf) ∧
    (∀ y ∈ b2, ∃ g, some g ∈ ms ∧ g.suf = S ".2.gz" ∧ y = g.pre ++ g.fmt ++ g.suf) ∧
    (∀ y ∈ b3, ∃ g, some g ∈ ms ∧ g.suf = S ".3.gz" ∧ y = g.pre ++ g.fmt ++ g.suf) := by
  induction ms generalizing b0 b1 b2 b3 with
  | nil =>
    simp only [buildBuckets, Except.ok.injEq, Prod.mk.injEq] at h
    obtain ⟨h0, h1, h2, h3⟩ := h
    subst h0 h1 h2 h3
    simp
  | cons o rest ih =>
    cases o with
    | none => simp [buildBuckets] at h
    | some g =>
      rcases hr : buildBuckets rest with e | t
      · simp only [buildBuckets, hr] at h
        simp at h
      · obtain ⟨c0, c1, c2, c3⟩ := t
        obtain ⟨IH0, IH1, IH2, IH3⟩ := ih c0 c1 c2 c3 hr
        have lift : ∀ (sfx : List Char) (cl : List (List Char)),
            (∀ y ∈ cl, ∃ g', some g' ∈ rest ∧ g'.suf = sfx ∧
              y = g'.pre ++ g'.fmt ++ g'.suf) →
            ∀ y ∈ cl, ∃ g', some g' ∈ some g :: rest ∧ g'.suf = sfx ∧
              y = g'.pre ++ g'.fmt ++ g'.suf := by
          intro sfx cl H y hy
          obtain ⟨g', hin, hs', hy'⟩ := H y hy
          exact ⟨g', List.mem_cons_of_mem _ hin, hs', hy'⟩
        simp only [buildBuckets, hr] at h
        split_ifs at h with h1 h2 h3 h4
        · simp only [Except.ok.injEq, Prod.mk.injEq] at h
          obtain ⟨e0, e1, e2, e3⟩ := h
          subst e0 e1 e2 e3
          refine ⟨?_, lift _ _ IH1, lift _ _ IH2, lift _ _ IH3⟩
          intro y hy
          rcases List.mem_cons.mp hy with rfl | hy'
          · exact ⟨g, List.mem_cons_self _ _, h1, rfl⟩
          · exact lift _ _ IH0 y hy'
        · simp only [Except.ok.injEq, Prod.mk.injEq] at h
          obtain ⟨e0, e1, e2, e3⟩ := h
          subst e0 e1 e2 e3
          refine ⟨lift _ _ IH0, ?_, lift _ _ IH2, lift _ _ IH3⟩
          intro y hy
          rcases List.mem_cons.mp hy with rfl | hy'
          · exact ⟨g, List.mem_cons_self _ _, h2, rfl⟩
          · exact lift _ _ IH1 y hy'
        · simp only [Except.ok.injEq, Prod.mk.injEq] at h
          obtain ⟨e0, e1, e2, e3⟩ := h
          subst e0 e1 e2 e3
          refine ⟨lift _ _ IH0, lift _ _ IH1, ?_, lift _ _ IH3⟩
          intro y hy
          rcases List.mem_cons.mp hy with rfl | hy'
          · exact ⟨g, List.mem_cons_self _ _, h3, rfl⟩
          · exact lift _ _ IH2 y hy'
        · simp only [Except.ok.injEq, Prod.mk.injEq] at h
          obtain ⟨e0, e1, e2, e3⟩ := h
          subst e0 e1 e2 e3
          refine ⟨lift _ _ IH0, lift _ _ IH1, lift _ _ IH2, ?_⟩
          intro y hy
          rcases List.mem_cons.mp hy with rfl | hy'
          · exact ⟨g, List.mem_cons_self _ _, h4, rfl⟩
          · exact lift _ _ IH3 y hy'
        · simp only [Except.ok.injEq, Prod.mk.injEq] at h
          obtain ⟨e0, e1, e2, e3⟩ := h
          subst e0 e1 e2 e3
          exact ⟨lift _ _ IH0, lift _ _ IH1, lift _ _ IH2, lift _ _ IH3⟩

/-- Joining the directory onto an entry preserves every suffix of the
entry. -/
theorem pjoin_suffix (d x t : List Char) (h : t <:+ x) : t <:+ pjoin d x := by
  unfold pjoin
  split_ifs with h1 h2 h3
  · exact h
  · exact h
  · exact h.trans (List.suffix_append d x)
  · exact h.trans ((List.suffix_cons '/' x).trans (List.suffix_append d ('/' :: x)))

/-- A four-character suffix read off the reverse of the string. -/
theorem suffix4_reverse {y : List Char} {c : Char} (h : [c, '.', 'g', 'z'] <:+ y) :
    ∃ rest, y.reverse = 'z' :: 'g' :: '.' :: c :: rest := by
  obtain ⟨u, hu⟩ := h
  exact ⟨u.reverse, by rw [← hu, List.reverse_append]; rfl⟩

/-- A five-character suffix read off the reverse of the string. -/
theorem suffix5_reverse {y : List Char} {k : Char} (h : ['.', k, '.', 'g', 'z'] <:+ y) :
    ∃ rest, y.reverse = 'z' :: 'g' :: '.' :: k :: '.' :: rest := by
  obtain ⟨u, hu⟩ := h
  exact ⟨u.reverse, by rw [← hu, List.reverse_append]; rfl⟩

/-- A path ending in a class character followed by `.gz` has role 0. -/
theorem roleOf_fmt_gz {y : List Char} {c : Char} (hc : fmtClass c = true)
    (h : [c, '.', 'g', 'z'] <:+ y) : roleOf y = some 0 := by
  obtain ⟨rest, hrev⟩ := suffix4_reverse h
  unfold roleOf
  rw [hrev]
  simp only [fmtClass, Bool.or_eq_true, decide_eq_true_eq] at hc
  rcases hc with (rfl | rfl) | rfl <;> rfl

/-- A path ending in `.1.gz` has role 1. -/
theorem roleOf_end1 {y : List Char} (h : ['.', '1', '.', 'g', 'z'] <:+ y) :
    roleOf y = some 1 := by
  obtain ⟨rest, hrev⟩ := suffix5_reverse h
  unfold roleOf
  rw [hrev]
  rfl

/-- A path ending in `.2.gz` has role 2. -/
theorem roleOf_end2 {y : List Char} (h : ['.', '2', '.', 'g', 'z'] <:+ y) :
    roleOf y = some 2 := by
  obtain ⟨rest, hrev⟩ := suffix5_reverse h
  unfold roleOf
  rw [hrev]
  rfl

/-- A path ending in `.3.gz` has role 3. -/
theorem roleOf_end3 {y : List Char} (h : ['.', '3', '.', 'g', 'z'] <:+ y) :
    roleOf y = some 3 := by
  obtain ⟨rest, hrev⟩ := suffix5_reverse h
  unfold roleOf
  rw [hrev]
  rfl

/-- C10: bucket invariant of the directory scan.  Whenever the bucketing
phase succeeds, every path placed in the role-k bucket ends with the
role-k suffix (`.gz`, `.1.gz`, `.2.gz`, `.3.gz` respectively, the role-0
paths moreover carrying a format class character before `.gz`), each path
has the role of its bucket under the suffix-reading function `roleOf`, and
consequently no path ever appears in two buckets. -/
theorem c10_buckets (dir : List Char) (listing : List (List Char))
    (B0 B1 B2 B3 : List (List Char))
    (h : scanBuckets dir listing = .ok (B0, B1, B2, B3)) :
    (∀ y ∈ B0, pyEndswith y (S ".gz") = true ∧ roleOf y = some 0) ∧
    (∀ y ∈ B1, pyEndswith y (S ".1.gz") = true ∧ roleOf y = some 1) ∧
    (∀ y ∈ B2, pyEndswith y (S ".2.gz") = true ∧ roleOf y = some 2) ∧
    (∀ y ∈ B3, pyEndswith y (S ".3.gz") = true ∧ roleOf y = some 3) ∧
    (∀ y, (y ∈ B0 → y ∉ B1 ∧ y ∉ B2 ∧ y ∉ B3) ∧
          (y ∈ B1 → y ∉ B2 ∧ y ∉ B3) ∧ (y ∈ B2 → y ∉ B3)) := by
  unfold scanBuckets at h
  rcases hb : buildBuckets (listing.map fnSearch) with e | t
  · rw [hb] at h
    simp at h
  · obtain ⟨c0, c1, c2, c3⟩ := t
    rw [hb] at h
    simp only [Except.ok.injEq, Prod.mk.injEq] at h
    obtain ⟨e0, e1, e2, e3⟩ := h
    subst e0 e1 e2 e3
    obtain ⟨M0, M1, M2, M3⟩ := buildBuckets_mem _ _ _ _ _ hb
    have R0 : ∀ y ∈ c0.map (pjoin dir),
        pyEndswith y (S ".gz") = true ∧ roleOf y = some 0 := by
      intro y hy
      obtain ⟨z, hz, rfl⟩ := List.mem_map.mp hy
      obtain ⟨g, hin, hsuf, rfl⟩ := M0 z hz
      obtain ⟨x, hxmem, hxs⟩ := List.mem_map.mp hin
      obtain ⟨c, hc, hfmt⟩ := fnSearch_fmt x g hxs
      have hsufy : [c, '.', 'g', 'z'] <:+ g.pre ++ g.fmt ++ g.suf := by
        rw [hfmt, hsuf]
        have hsplit : g.pre ++ ('.' :: 'f' :: 'a' :: 's' :: 't' :: [c]) ++ S ".gz" =
            (g.pre ++ ['.', 'f', 'a', 's', 't']) ++ [c, '.', 'g', 'z'] := by
          simp only [List.append_assoc, List.cons_append, List.nil_append]
          rfl
        rw [hsplit]
        exact List.suffix_append _ _
      have hgz : S ".gz" <:+ g.pre ++ g.fmt ++ g.suf := by
        rw [hsuf]
        exact List.suffix_append _ _
      exact ⟨pyEndswith_of_suffix (pjoin_suffix dir _ _ hgz),
        roleOf_fmt_gz hc (pjoin_suffix dir _ _ hsufy)⟩
    have R1 : ∀ y ∈ c1.map (pjoin dir),
        pyEndswith y (S ".1.gz") = true ∧ roleOf y = some 1 := by
      intro y hy
      obtain ⟨z, hz, rfl⟩ := List.mem_map.mp hy
      obtain ⟨g, hin, hsuf, rfl⟩ := M1 z hz
      have hs : S ".1.gz" <:+ g.pre ++ g.fmt ++ g.suf := by
        rw [hsuf]
        exact List.suffix_append _ _
      exact ⟨pyEndswith_of_suffix (pjoin_suffix dir _ _ hs),
        roleOf_end1 (pjoin_suffix dir _ _ hs)⟩
    have R2 : ∀ y ∈ c2.map (pjoin dir),
        pyEndswith y (S ".2.gz") = true ∧ roleOf y = some 2 := by
      intro y hy
      obtain ⟨z, hz, rfl⟩ := List.mem_map.mp hy
      obtain ⟨g, hin, hsuf, rfl⟩ := M2 z hz
      have hs : S ".2.gz" <:+ g.pre ++ g.fmt ++ g.suf := by
        rw [hsuf]
        exact List.suffix_append _ _
      exact ⟨pyEndswith_of_suffix (pjoin_suffix dir _ _ hs),
        roleOf_end2 (pjoin_suffix dir _ _ hs)⟩
    have R3 : ∀ y ∈ c3.map (pjoin dir),
        pyEndswith y (S ".3.gz") = true ∧ roleOf y = some 3 := by
      intro y hy
      obtain ⟨z, hz, rfl⟩ := List.mem_map.mp hy
      obtain ⟨g, hin, hsuf, rfl⟩ := M3 z hz
      have hs : S ".3.gz" <:+ g.pre ++ g.fmt ++ g.suf := by
        rw [hsuf]
        exact List.suffix_append _ _
      exact ⟨pyEndswith_of_suffix (pjoin_suffix dir _ _ hs),
        roleOf_end3 (pjoin_suffix dir _ _ hs)⟩
    refine ⟨R0, R1, R2, R3, ?_⟩
    intro y
    refine ⟨fun h0 => ⟨fun h1 => ?_, fun h2 => ?_, fun h3 => ?_⟩,
            fun h1 => ⟨fun h2 => ?_, fun h3 => ?_⟩, fun h2 => fun h3 => ?_⟩
    · have a := (R0 y h0).2
      have b := (R1 y h1).2
      rw [a] at b
      simp at b
    · have a := (R0 y h0).2
      have b := (R2 y h2).2
      rw [a] at b
      simp at b
    · have a := (R0 y h0).2
      have b := (R3 y h3).2
      rw [a] at b
      simp at b
    · have a := (R1 y h1).2
      have b := (R2 y h2).2
      rw [a] at b
      simp at b
    · have a := (R1 y h1).2
      have b := (R3 y h3).2
      rw [a] at b
      simp at b
    · have a := (R2 y h2).2
      have b := (R3 y h3).2
      rw [a] at b
      simp at b

/-- C10 witness: the invariant applied to a directory with one paired and
one single-end file. -/
theorem c10_witness :
    pyEndswith (S "d/s.fastq.gz") (S ".gz") = true ∧
    roleOf (S "d/s.fastq.gz") = some 0 ∧
    (S "d/s.fastq.gz") ∉ [S "d/s.fastq.1.gz"] := by
  have h := c10_buckets (S "d") [S "s.fastq.1.gz", S "s.fastq.gz"]
      [S "d/s.fastq.gz"] [S "d/s.fastq.1.gz"] [] [] (by decide)
  have hm : (S "d/s.fastq.gz") ∈ [S "d/s.fastq.gz"] := by simp
  exact ⟨(h.1 _ hm).1, (h.1 _ hm).2, ((h.2.2.2.2 _).1 hm).1⟩
